import Mathlib

/-!
Shallow embedding of the sawmill management service's core logic:
the order / spare-part inventory-consistency operations
(`createOrder_service.py`, `useSparePart_service.py`), the scheduling
conflict checks (`createSchedule_service.py`, `updateSchedule_service.py`),
the HTTP boundary behaviour of `server.py`, and the market-price fetch
(`getCurrentMarketPrice_service.py`).

The persistent store (Prisma) is modelled as explicit Lean lists threaded
through each operation; `find_unique` on an `id` column is `List.find?`
on the `id` field, and an `update where id` is a map over the list that
rewrites the matching record.  Timestamps are integers (`datetime` values
are only ever compared), and fresh identifiers produced by the database or
by `uuid.uuid4()` are supplied as explicit arguments / seeds.
-/

namespace Sawmill

/-- An inventory record (`InventoryItem` table): id, name, category and
non-negative-intended quantity. -/
structure InventoryItem where
  id : String
  name : String
  itemType : String
  quantity : Int
  deriving Repr, DecidableEq

/-- A line item of an order request (`OrderItem` request model). -/
structure OrderItem where
  inventoryItemId : String
  quantity : Int
  deriving Repr, DecidableEq

/-- A `SalesOrder` record as created by `createOrder`. -/
structure SalesOrder where
  id : String
  customerId : String
  status : String
  deriving Repr, DecidableEq

/-- An `InventoryLog` record: signed change amount, timestamp, owning item. -/
structure InventoryLog where
  inventoryItemId : String
  changeAmount : Int
  timestamp : Int
  deriving Repr, DecidableEq

/-- Response model of `createOrder`. -/
structure CreateOrderResponse where
  orderId : String
  deriving Repr, DecidableEq

/-- The slice of the store that the order / spare-part operations touch. -/
structure SysState where
  inventory : List InventoryItem
  orders : List SalesOrder
  logs : List InventoryLog
  deriving Repr, DecidableEq

/-- `InventoryItem.prisma().find_unique(where=\x7b"id": key\x7d)`. -/
def findItem (db : List InventoryItem) (key : String) : Option InventoryItem :=
  db.find? (fun it => it.id == key)

/-- `InventoryItem.prisma().update(where=\x7b"id": key\x7d, data=\x7b"quantity": \x7b"decrement": n\x7d\x7d)`:
rewrite the record whose id matches, decrementing its quantity. -/
def decrementItem (db : List InventoryItem) (key : String) (n : Int) : List InventoryItem :=
  db.map fun it => if it.id = key then { it with quantity := it.quantity - n } else it

/-- `InventoryItem.prisma().update(where=\x7b"id": key\x7d, data=\x7b"quantity": q\x7d)`:
rewrite the record whose id matches, setting its quantity. -/
def setItemQuantity (db : List InventoryItem) (key : String) (q : Int) : List InventoryItem :=
  db.map fun it => if it.id = key then { it with quantity := q } else it

/-- The validation loop of `createOrder` (lines 43-48): for each line item
fetch the record; if it is missing or its quantity is below the requested
amount, raise `ValueError` naming the item (modelled as `Except.error`). -/
def validateItems (db : List InventoryItem) : List OrderItem → Except String Unit
  | [] => .ok ()
  | item :: rest =>
    match findItem db item.inventoryItemId with
    | none => .error ("Not enough stock for item ID " ++ item.inventoryItemId)
    | some inv =>
      if inv.quantity < item.quantity then
        .error ("Not enough stock for item ID " ++ item.inventoryItemId)
      else validateItems db rest

/-- The commit loop of `createOrder` (lines 49-53): decrement every line
item's quantity in order. -/
def applyDecrements (db : List InventoryItem) : List OrderItem → List InventoryItem
  | [] => db
  | item :: rest => applyDecrements (decrementItem db item.inventoryItemId item.quantity) rest

instance {α β : Type} [DecidableEq α] [DecidableEq β] : DecidableEq (Except α β)
  | .error a, .error b =>
    if h : a = b then .isTrue (by rw [h]) else .isFalse (by intro hc; cases hc; exact h rfl)
  | .error _, .ok _ => .isFalse (by intro hc; cases hc)
  | .ok _, .error _ => .isFalse (by intro hc; cases hc)
  | .ok a, .ok b =>
    if h : a = b then .isTrue (by rw [h]) else .isFalse (by intro hc; cases hc; exact h rfl)

/-- Result of `createOrder`: the returned value (or the raised `ValueError`
message) together with the post-state of the store. -/
structure CreateOrderOutcome where
  result : Except String CreateOrderResponse
  state : SysState
  deriving Repr, DecidableEq

/-- `createOrder(customerId, items)` from `createOrder_service.py`:
validation pass over all line items, then the decrement pass, then creation
of the `SalesOrder` record (with a store-generated id, passed explicitly).
No `InventoryLog` record is written anywhere in this function.  A raised
`ValueError` aborts before any update, so the state is unchanged on error. -/
def createOrder (st : SysState) (freshOrderId : String) (customerId : String)
    (items : List OrderItem) : CreateOrderOutcome :=
  match validateItems st.inventory items with
  | .error msg => ⟨.error msg, st⟩
  | .ok () =>
    let inv := applyDecrements st.inventory items
    ⟨.ok ⟨freshOrderId⟩,
     ⟨inv, st.orders ++ [⟨freshOrderId, customerId, "PENDING"⟩], st.logs⟩⟩

/-- Spec-side notion: the id of the first line item (in input order) that is
missing from inventory or has insufficient stock. -/
def itemInsufficient (db : List InventoryItem) (item : OrderItem) : Bool :=
  match findItem db item.inventoryItemId with
  | none => true
  | some inv => inv.quantity < item.quantity

/-- First insufficient line item's id, scanning in input order. -/
def firstInsufficientId (db : List InventoryItem) : List OrderItem → Option String
  | [] => none
  | item :: rest =>
    if itemInsufficient db item then some item.inventoryItemId
    else firstInsufficientId db rest

theorem validateItems_eq_firstInsufficient (db : List InventoryItem) (items : List OrderItem) :
    validateItems db items =
      match firstInsufficientId db items with
      | some b => .error ("Not enough stock for item ID " ++ b)
      | none => .ok () := by
  induction items with
  | nil => rfl
  | cons item rest ih =>
    rw [validateItems, firstInsufficientId]
    by_cases hi : itemInsufficient db item = true
    · rw [if_pos hi]
      unfold itemInsufficient at hi
      cases hfind : findItem db item.inventoryItemId with
      | none => simp [hfind]
      | some inv =>
        rw [hfind] at hi
        simp only [decide_eq_true_eq] at hi
        simp [hfind, hi]
    · rw [if_neg hi]
      unfold itemInsufficient at hi
      cases hfind : findItem db item.inventoryItemId with
      | none => rw [hfind] at hi; simp at hi
      | some inv =>
        rw [hfind] at hi
        simp only [decide_eq_true_eq] at hi
        simp [hfind, hi, ih]

theorem validateItems_ok_of_none (db : List InventoryItem) (items : List OrderItem)
    (h : firstInsufficientId db items = none) : validateItems db items = .ok () := by
  rw [validateItems_eq_firstInsufficient, h]

theorem validateItems_error_of_some (db : List InventoryItem) (items : List OrderItem)
    (b : String) (h : firstInsufficientId db items = some b) :
    validateItems db items = .error ("Not enough stock for item ID " ++ b) := by
  rw [validateItems_eq_firstInsufficient, h]

/-- If no line item is flagged insufficient, then every line item was found
and its prior quantity covers that line's requested amount. -/
theorem sufficient_of_firstInsufficient_none (db : List InventoryItem) (items : List OrderItem)
    (h : firstInsufficientId db items = none) :
    ∀ it ∈ items, ∃ inv, findItem db it.inventoryItemId = some inv ∧ it.quantity ≤ inv.quantity := by
  induction items with
  | nil => intro it hit; cases hit
  | cons item rest ih =>
    intro it hit
    simp only [firstInsufficientId] at h
    by_cases hi : itemInsufficient db item = true
    · simp [hi] at h
    · simp [hi] at h
      rcases List.mem_cons.mp hit with rfl | hmem
      · simp only [itemInsufficient] at hi
        cases hfind : findItem db it.inventoryItemId with
        | none => rw [hfind] at hi; simp at hi
        | some inv =>
          refine ⟨inv, rfl, ?_⟩
          rw [hfind] at hi
          simpa using hi
      · exact ih h it hmem

/-- `server.py`'s handler `api_post_createOrder`: call the service inside a
`try`, return its payload on success; any raised exception is caught, logged
and returned as an HTTP 500 response with an `error` body. -/
inductive HttpOutcome (α : Type) where
  | ok (payload : α)
  | errorResponse (status : Nat) (body : String)
  deriving Repr, DecidableEq

def api_post_createOrder (st : SysState) (freshOrderId customerId : String)
    (items : List OrderItem) : HttpOutcome CreateOrderResponse × SysState :=
  let out := createOrder st freshOrderId customerId items
  match out.result with
  | .ok resp => (.ok resp, out.state)
  | .error msg => (.errorResponse 500 msg, out.state)

/-- C1 (amended): `createOrder` is all-or-nothing over distinct-item reads:
if some line item is missing or insufficient, the whole call fails with an
error naming the first such item and the state is unchanged; if validation
passes, an order record is created and every line item's prior quantity was
at least that line's requested amount.  (Aggregate oversell across duplicate
line items for the same inventory item is still possible, see the
counterexample.) -/
theorem createOrder_all_or_nothing (st : SysState) (freshOrderId customerId : String)
    (items : List OrderItem) :
    (∀ b, firstInsufficientId st.inventory items = some b →
      createOrder st freshOrderId customerId items =
        ⟨.error ("Not enough stock for item ID " ++ b), st⟩)
    ∧ (firstInsufficientId st.inventory items = none →
      (createOrder st freshOrderId customerId items).result = .ok ⟨freshOrderId⟩
      ∧ (createOrder st freshOrderId customerId items).state.orders
          = st.orders ++ [⟨freshOrderId, customerId, "PENDING"⟩]
      ∧ ∀ it ∈ items, ∃ inv, findItem st.inventory it.inventoryItemId = some inv
          ∧ it.quantity ≤ inv.quantity) := by
  constructor
  · intro b hb
    unfold createOrder
    rw [validateItems_error_of_some _ _ _ hb]
  · intro hnone
    have hok := validateItems_ok_of_none _ _ hnone
    unfold createOrder
    rw [hok]
    exact ⟨rfl, rfl, sufficient_of_firstInsufficient_none _ _ hnone⟩

theorem createOrder_all_or_nothing_witness :
    createOrder ⟨[⟨"A", "a", "MATERIAL", 5⟩], [], []⟩ "o1" "c1" [⟨"A", 10⟩] =
      ⟨.error ("Not enough stock for item ID " ++ "A"), ⟨[⟨"A", "a", "MATERIAL", 5⟩], [], []⟩⟩ :=
  (createOrder_all_or_nothing ⟨[⟨"A", "a", "MATERIAL", 5⟩], [], []⟩ "o1" "c1"
    [⟨"A", 10⟩]).1 "A" (by decide)

/-- C1 (counterexample): with item `A` at quantity 5, an order with two line
items each requesting 3 of `A` passes validation (each line alone is covered
by the prior quantity 5), the order record is created, and the committed
decrements drive `A`'s quantity to -1 although 5 < 3 + 3: an order IS created
with an oversold item. -/
theorem createOrder_duplicate_item_oversells :
    (createOrder ⟨[⟨"A", "a", "MATERIAL", 5⟩], [], []⟩ "o1" "c1"
        [⟨"A", 3⟩, ⟨"A", 3⟩]).result = .ok ⟨"o1"⟩
    ∧ (createOrder ⟨[⟨"A", "a", "MATERIAL", 5⟩], [], []⟩ "o1" "c1"
        [⟨"A", 3⟩, ⟨"A", 3⟩]).state.orders = [⟨"o1", "c1", "PENDING"⟩]
    ∧ findItem (createOrder ⟨[⟨"A", "a", "MATERIAL", 5⟩], [], []⟩ "o1" "c1"
        [⟨"A", 3⟩, ⟨"A", 3⟩]).state.inventory "A" = some ⟨"A", "a", "MATERIAL", -1⟩
    ∧ (5 : Int) < 3 + 3 := by decide

/-- C5 (counterexample): an order for 10 of item `A` with only 5 in stock is
answered by the HTTP layer with status 500 and an error body, not with a
typed success/failure payload: the `ValueError` raised by `createOrder`
crosses the boundary and is caught by the generic handler in `server.py`. -/
theorem api_createOrder_insufficient_is_500 :
    api_post_createOrder ⟨[⟨"A", "a", "MATERIAL", 5⟩], [], []⟩ "o1" "c1" [⟨"A", 10⟩]
      = (.errorResponse 500 "Not enough stock for item ID A",
         ⟨[⟨"A", "a", "MATERIAL", 5⟩], [], []⟩) := by decide

/-- C5 (amended): whenever some line item of a `createOrder` request is
missing or has insufficient stock, the endpoint responds with HTTP 500 whose
body names the first insufficient item, and the state is unchanged.
Insufficient stock is surfaced as a 500, not as a typed failure payload. -/
theorem api_createOrder_error_surfaces_500 (st : SysState) (freshOrderId customerId : String)
    (items : List OrderItem) (b : String)
    (h : firstInsufficientId st.inventory items = some b) :
    api_post_createOrder st freshOrderId customerId items
      = (.errorResponse 500 ("Not enough stock for item ID " ++ b), st) := by
  unfold api_post_createOrder createOrder
  rw [validateItems_error_of_some _ _ _ h]

theorem api_createOrder_error_surfaces_500_witness :
    api_post_createOrder ⟨[⟨"B", "b", "PRODUCT", 0⟩], [], []⟩ "o2" "c2" [⟨"B", 1⟩]
      = (.errorResponse 500 ("Not enough stock for item ID " ++ "B"),
         ⟨[⟨"B", "b", "PRODUCT", 0⟩], [], []⟩) :=
  api_createOrder_error_surfaces_500 ⟨[⟨"B", "b", "PRODUCT", 0⟩], [], []⟩ "o2" "c2"
    [⟨"B", 1⟩] "B" (by decide)

/-- A `MaintenanceLog` record: equipment reference, window bounds and the
nullable completion date (`null` = maintenance still open). -/
structure MaintenanceLog where
  id : String
  equipmentId : String
  startTime : Int
  endTime : Int
  completionDate : Option Int
  deriving Repr, DecidableEq

/-- `MaintenanceLog.prisma().find_unique(where=\x7b"id": key\x7d)`. -/
def findMaint (db : List MaintenanceLog) (key : String) : Option MaintenanceLog :=
  db.find? (fun r => r.id == key)

/-- A spare part and the quantity used (`PartUsage` request model). -/
structure PartUsage where
  partId : String
  quantityUsed : Int
  deriving Repr, DecidableEq

/-- Remaining quantity of one inventory item (`InventoryState` model). -/
structure InventoryState where
  partId : String
  remainingQuantity : Int
  deriving Repr, DecidableEq

/-- Response model of `useSparePart`.  (`updatedRecord` is optional here to
express the not-found branch, where the Python passes `None`.) -/
structure MaintenancePartsLogResponse where
  success : Bool
  updatedRecord : Option MaintenanceLog
  remainingInventory : List InventoryState
  deriving Repr, DecidableEq

/-- Output of the per-part loop of `useSparePart` (lines 66-88): the updated
inventory, the `InventoryLog` records created by this call, the
`remaining_inventory` entries accumulated, and the `all_success` flag. -/
structure PartsLoopOut where
  inventory : List InventoryItem
  newLogs : List InventoryLog
  newRemaining : List InventoryState
  allSuccess : Bool
  deriving Repr, DecidableEq

/-- The per-part loop of `useSparePart`: for each part in input order,
re-fetch the item; if it exists and its quantity covers the requested usage,
set the quantity to the difference, record the remaining quantity and create
a log entry with change amount `-quantityUsed`; otherwise clear the
`all_success` flag and continue.  The Python appends to growing lists; the
recursion equivalently prepends the head's contributions to the tail's. -/
def usePartsLoop (now : Int) (inv : List InventoryItem) : List PartUsage → PartsLoopOut
  | [] => ⟨inv, [], [], true⟩
  | part :: rest =>
    match findItem inv part.partId with
    | some it =>
      if part.quantityUsed ≤ it.quantity then
        let newQ := it.quantity - part.quantityUsed
        let out := usePartsLoop now (setItemQuantity inv part.partId newQ) rest
        ⟨out.inventory, ⟨part.partId, -part.quantityUsed, now⟩ :: out.newLogs,
         ⟨part.partId, newQ⟩ :: out.newRemaining, out.allSuccess⟩
      else
        let out := usePartsLoop now inv rest
        ⟨out.inventory, out.newLogs, out.newRemaining, false⟩
    | none =>
      let out := usePartsLoop now inv rest
      ⟨out.inventory, out.newLogs, out.newRemaining, false⟩

/-- Result of `useSparePart`: the response plus the store post-state. -/
structure UsePartsOutcome where
  response : MaintenancePartsLogResponse
  inventory : List InventoryItem
  logs : List InventoryLog
  deriving Repr, DecidableEq

/-- `useSparePart(recordId, parts)` from `useSparePart_service.py`: if the
maintenance record is missing, the code builds a response with
`updatedRecord=None` for a non-optional pydantic field — which would raise
before returning; since no store write precedes it, that branch's state
effects (inventory and log unchanged) are modelled here and its response is
a placeholder excluded by hypothesis in the theorems.  Otherwise run the
per-part loop and return its flag, the re-fetched record and the
accumulated remaining quantities. -/
def useSparePart (maintDb : List MaintenanceLog) (inv : List InventoryItem)
    (logs : List InventoryLog) (now : Int) (recordId : String)
    (parts : List PartUsage) : UsePartsOutcome :=
  match findMaint maintDb recordId with
  | none => ⟨⟨false, none, []⟩, inv, logs⟩
  | some _ =>
    let out := usePartsLoop now inv parts
    ⟨⟨out.allSuccess, findMaint maintDb recordId, out.newRemaining⟩,
     out.inventory, logs ++ out.newLogs⟩

theorem findItem_id (inv : List InventoryItem) (y : String) (it : InventoryItem)
    (h : findItem inv y = some it) : it.id = y := by
  have := List.find?_some h
  simpa using this

theorem findItem_map_ite (inv : List InventoryItem) (x y : String)
    (g : InventoryItem → InventoryItem) (hg : ∀ it, (g it).id = it.id) :
    findItem (inv.map fun it => if it.id = x then g it else it) y =
      (findItem inv y).map (fun it => if it.id = x then g it else it) := by
  induction inv with
  | nil => rfl
  | cons r rest ih =>
    have hid : (if r.id = x then g r else r).id = r.id := by
      by_cases hr : r.id = x <;> simp [hr, hg]
    by_cases hy : r.id = y
    · have h1 : ((if r.id = x then g r else r).id == y) = true := by
        rw [hid, hy]; exact beq_self_eq_true y
      have h2 : (r.id == y) = true := by rw [hy]; exact beq_self_eq_true y
      simp [findItem, List.find?, h1, h2]
    · have h1 : ((if r.id = x then g r else r).id == y) = false := by
        rw [hid]; exact beq_false_of_ne hy
      have h2 : (r.id == y) = false := beq_false_of_ne hy
      simp only [List.map, findItem, List.find?, h1, h2]
      exact ih

theorem findItem_setItemQuantity_ne (inv : List InventoryItem) (x y : String) (q : Int)
    (h : y ≠ x) : findItem (setItemQuantity inv x q) y = findItem inv y := by
  rw [setItemQuantity,
    findItem_map_ite inv x y (fun it => { it with quantity := q }) (fun it => rfl)]
  cases hf : findItem inv y with
  | none => rfl
  | some it =>
    have hid := findItem_id inv y it hf
    have : ¬ it.id = x := by rw [hid]; exact h
    simp [this]

theorem findItem_setItemQuantity_eq (inv : List InventoryItem) (x : String) (q : Int) :
    findItem (setItemQuantity inv x q) x =
      (findItem inv x).map (fun it => { it with quantity := q }) := by
  rw [setItemQuantity,
    findItem_map_ite inv x x (fun it => { it with quantity := q }) (fun it => rfl)]
  cases hf : findItem inv x with
  | none => rfl
  | some it =>
    have hid := findItem_id inv x it hf
    simp [hid]

theorem findItem_decrementItem_ne (inv : List InventoryItem) (x y : String) (n : Int)
    (h : y ≠ x) : findItem (decrementItem inv x n) y = findItem inv y := by
  rw [decrementItem,
    findItem_map_ite inv x y (fun it => { it with quantity := it.quantity - n }) (fun it => rfl)]
  cases hf : findItem inv y with
  | none => rfl
  | some it =>
    have hid := findItem_id inv y it hf
    have : ¬ it.id = x := by rw [hid]; exact h
    simp [this]

theorem findItem_decrementItem_eq (inv : List InventoryItem) (x : String) (n : Int) :
    findItem (decrementItem inv x n) x =
      (findItem inv x).map (fun it => { it with quantity := it.quantity - n }) := by
  rw [decrementItem,
    findItem_map_ite inv x x (fun it => { it with quantity := it.quantity - n }) (fun it => rfl)]
  cases hf : findItem inv x with
  | none => rfl
  | some it =>
    have hid := findItem_id inv x it hf
    simp [hid]

/-- The per-part loop leaves untouched every item whose id is not among the
requested parts. -/
theorem usePartsLoop_findItem_not_mem (now : Int) (parts : List PartUsage) :
    ∀ (inv : List InventoryItem) (y : String), y ∉ parts.map PartUsage.partId →
      findItem (usePartsLoop now inv parts).inventory y = findItem inv y := by
  induction parts with
  | nil => intro inv y _; rfl
  | cons part rest ih =>
    intro inv y hy
    simp only [List.map, List.mem_cons, not_or] at hy
    obtain ⟨hne, hrest⟩ := hy
    rw [usePartsLoop]
    cases hf : findItem inv part.partId with
    | none => exact ih inv y hrest
    | some it =>
      by_cases hq : part.quantityUsed ≤ it.quantity
      · simp only [hq, if_true]
        rw [ih _ y hrest, findItem_setItemQuantity_ne _ _ _ _ hne]
      · simp only [hq, if_false]
        exact ih inv y hrest

theorem usePartsLoop_rem_le (now : Int) (parts : List PartUsage) :
    ∀ inv, (usePartsLoop now inv parts).newRemaining.length ≤ parts.length := by
  induction parts with
  | nil => intro inv; simp [usePartsLoop]
  | cons part rest ih =>
    intro inv
    rw [usePartsLoop]
    cases hf : findItem inv part.partId with
    | none => simpa using Nat.le_succ_of_le (ih inv)
    | some it =>
      by_cases hq : part.quantityUsed ≤ it.quantity
      · simpa [hq] using Nat.succ_le_succ (ih _)
      · simpa [hq] using Nat.le_succ_of_le (ih inv)

theorem usePartsLoop_logs_map (now : Int) (parts : List PartUsage) :
    ∀ inv, ((usePartsLoop now inv parts).newLogs.map InventoryLog.inventoryItemId)
      = (usePartsLoop now inv parts).newRemaining.map InventoryState.partId := by
  induction parts with
  | nil => intro inv; rfl
  | cons part rest ih =>
    intro inv
    rw [usePartsLoop]
    cases hf : findItem inv part.partId with
    | none => simpa using ih inv
    | some it =>
      by_cases hq : part.quantityUsed ≤ it.quantity
      · simpa [hq] using ih (setItemQuantity inv part.partId (it.quantity - part.quantityUsed))
      · simpa [hq] using ih inv

theorem usePartsLoop_logs_len (now : Int) (parts : List PartUsage) (inv : List InventoryItem) :
    (usePartsLoop now inv parts).newLogs.length
      = (usePartsLoop now inv parts).newRemaining.length := by
  have h := usePartsLoop_logs_map now parts inv
  have h1 := congrArg List.length h
  simpa using h1

theorem usePartsLoop_success_iff (now : Int) (parts : List PartUsage) :
    ∀ inv, ((usePartsLoop now inv parts).allSuccess = true
      ↔ (usePartsLoop now inv parts).newRemaining.length = parts.length) := by
  induction parts with
  | nil => intro inv; simp [usePartsLoop]
  | cons part rest ih =>
    intro inv
    rw [usePartsLoop]
    cases hf : findItem inv part.partId with
    | none =>
      have hle := usePartsLoop_rem_le now rest inv
      simp only [List.length_cons]
      constructor
      · intro h; simp at h
      · intro h
        simp only at h
        omega
    | some it =>
      by_cases hq : part.quantityUsed ≤ it.quantity
      · simp only [hq, if_true, List.length_cons]
        constructor
        · intro h
          have := (ih _).mp h
          simpa using this
        · intro h
          exact (ih _).mpr (by simpa using h)
      · have hle := usePartsLoop_rem_le now rest inv
        simp only [hq, if_false, List.length_cons]
        constructor
        · intro h; simp at h
        · intro h
          simp only at h
          omega

theorem usePartsLoop_logs_from_parts (now : Int) (parts : List PartUsage) :
    ∀ inv, ∀ e ∈ (usePartsLoop now inv parts).newLogs, ∃ p ∈ parts,
      e.inventoryItemId = p.partId ∧ e.changeAmount = -p.quantityUsed ∧ e.timestamp = now := by
  induction parts with
  | nil => intro inv e he; simp [usePartsLoop] at he
  | cons part rest ih =>
    intro inv e he
    rw [usePartsLoop] at he
    cases hf : findItem inv part.partId with
    | none =>
      rw [hf] at he
      simp only at he
      obtain ⟨p, hp, h⟩ := ih inv e he
      exact ⟨p, List.mem_cons_of_mem _ hp, h⟩
    | some it =>
      rw [hf] at he
      by_cases hq : part.quantityUsed ≤ it.quantity
      · simp only [hq, if_true] at he
        rcases List.mem_cons.mp he with rfl | hmem
        · exact ⟨part, List.mem_cons_self _ _, rfl, rfl, rfl⟩
        · obtain ⟨p, hp, h⟩ := ih _ e hmem
          exact ⟨p, List.mem_cons_of_mem _ hp, h⟩
      · simp only [hq, if_false] at he
        obtain ⟨p, hp, h⟩ := ih inv e he
        exact ⟨p, List.mem_cons_of_mem _ hp, h⟩

theorem usePartsLoop_rem_nonneg (now : Int) (parts : List PartUsage) :
    ∀ inv, ∀ s ∈ (usePartsLoop now inv parts).newRemaining, 0 ≤ s.remainingQuantity := by
  induction parts with
  | nil => intro inv s hs; simp [usePartsLoop] at hs
  | cons part rest ih =>
    intro inv s hs
    rw [usePartsLoop] at hs
    cases hf : findItem inv part.partId with
    | none =>
      rw [hf] at hs
      exact ih inv s hs
    | some it =>
      rw [hf] at hs
      by_cases hq : part.quantityUsed ≤ it.quantity
      · simp only [hq, if_true] at hs
        rcases List.mem_cons.mp hs with rfl | hmem
        · simpa using hq
        · exact ih _ s hmem
      · simp only [hq, if_false] at hs
        exact ih inv s hs

theorem usePartsLoop_rem_ids (now : Int) (parts : List PartUsage) :
    ∀ inv, ∀ s ∈ (usePartsLoop now inv parts).newRemaining,
      s.partId ∈ parts.map PartUsage.partId := by
  induction parts with
  | nil => intro inv s hs; simp [usePartsLoop] at hs
  | cons part rest ih =>
    intro inv s hs
    rw [usePartsLoop] at hs
    cases hf : findItem inv part.partId with
    | none =>
      rw [hf] at hs
      exact List.mem_cons_of_mem _ (ih inv s hs)
    | some it =>
      rw [hf] at hs
      by_cases hq : part.quantityUsed ≤ it.quantity
      · simp only [hq, if_true] at hs
        rcases List.mem_cons.mp hs with rfl | hmem
        · exact List.mem_cons_self _ _
        · exact List.mem_cons_of_mem _ (ih _ s hmem)
      · simp only [hq, if_false] at hs
        exact List.mem_cons_of_mem _ (ih inv s hs)

/-- Each recorded remaining quantity is the final stored quantity of that
part, provided the requested part ids are distinct. -/
theorem usePartsLoop_final_quantities (now : Int) (parts : List PartUsage) :
    ∀ inv, (parts.map PartUsage.partId).Nodup →
      ∀ s ∈ (usePartsLoop now inv parts).newRemaining, ∃ it,
        findItem (usePartsLoop now inv parts).inventory s.partId = some it
        ∧ it.quantity = s.remainingQuantity := by
  induction parts with
  | nil => intro inv _ s hs; simp [usePartsLoop] at hs
  | cons part rest ih =>
    intro inv hnd s hs
    simp only [List.map, List.nodup_cons] at hnd
    obtain ⟨hnmem, hndrest⟩ := hnd
    rw [usePartsLoop] at hs ⊢
    cases hf : findItem inv part.partId with
    | none =>
      rw [hf] at hs
      exact ih inv hndrest s hs
    | some it =>
      rw [hf] at hs
      by_cases hq : part.quantityUsed ≤ it.quantity
      · simp only [hq, if_true] at hs ⊢
        rcases List.mem_cons.mp hs with rfl | hmem
        · refine ⟨{ it with quantity := it.quantity - part.quantityUsed }, ?_, rfl⟩
          rw [usePartsLoop_findItem_not_mem now rest _ part.partId hnmem,
            findItem_setItemQuantity_eq, hf]
          rfl
        · exact ih _ hndrest s hmem
      · simp only [hq, if_false] at hs ⊢
        exact ih inv hndrest s hs

/-- Each recorded remaining quantity is the part's prior quantity minus the
requested usage, and that usage was covered by the prior quantity
(distinct part ids). -/
theorem usePartsLoop_prior (now : Int) (parts : List PartUsage) :
    ∀ inv, (parts.map PartUsage.partId).Nodup →
      ∀ p ∈ parts, ∀ s ∈ (usePartsLoop now inv parts).newRemaining, s.partId = p.partId →
        ∃ prior, findItem inv p.partId = some prior ∧ p.quantityUsed ≤ prior.quantity
          ∧ s.remainingQuantity = prior.quantity - p.quantityUsed := by
  induction parts with
  | nil => intro inv _ p hp; cases hp
  | cons part rest ih =>
    intro inv hnd p hp s hs hsp
    simp only [List.map, List.nodup_cons] at hnd
    obtain ⟨hnmem, hndrest⟩ := hnd
    rw [usePartsLoop] at hs
    cases hf : findItem inv part.partId with
    | none =>
      rw [hf] at hs
      rcases List.mem_cons.mp hp with rfl | hpmem
      · exfalso
        have := usePartsLoop_rem_ids now rest inv s hs
        rw [hsp] at this
        exact hnmem this
      · exact ih inv hndrest p hpmem s hs hsp
    | some it =>
      rw [hf] at hs
      by_cases hq : part.quantityUsed ≤ it.quantity
      · simp only [hq, if_true] at hs
        rcases List.mem_cons.mp hp with rfl | hpmem
        · rcases List.mem_cons.mp hs with rfl | hmem
          · exact ⟨it, hf, hq, rfl⟩
          · exfalso
            have := usePartsLoop_rem_ids now rest _ s hmem
            rw [hsp] at this
            exact hnmem this
        · rcases List.mem_cons.mp hs with rfl | hmem
          · exfalso
            apply hnmem
            have hpp : part.partId = p.partId := hsp
            rw [hpp]
            exact List.mem_map_of_mem PartUsage.partId hpmem
          · have hne : p.partId ≠ part.partId := by
              intro hcon
              apply hnmem
              rw [← hcon]
              exact List.mem_map_of_mem PartUsage.partId hpmem
            obtain ⟨prior, hprior, h1, h2⟩ := ih _ hndrest p hpmem s hmem hsp
            rw [findItem_setItemQuantity_ne _ _ _ _ hne] at hprior
            exact ⟨prior, hprior, h1, h2⟩
      · simp only [hq, if_false] at hs
        rcases List.mem_cons.mp hp with rfl | hpmem
        · exfalso
          have := usePartsLoop_rem_ids now rest inv s hs
          rw [hsp] at this
          exact hnmem this
        · exact ih inv hndrest p hpmem s hs hsp

/-- The per-part success condition of `useSparePart`, read off the inputs:
the part exists in inventory and its quantity covers the requested usage. -/
def partSucceedsB (inv : List InventoryItem) (p : PartUsage) : Bool :=
  match findItem inv p.partId with
  | none => false
  | some prior => decide (p.quantityUsed ≤ prior.quantity)

theorem partSucceedsB_eq_of_findItem_eq (inv1 inv2 : List InventoryItem) (p : PartUsage)
    (h : findItem inv1 p.partId = findItem inv2 p.partId) :
    partSucceedsB inv1 p = partSucceedsB inv2 p := by
  unfold partSucceedsB
  rw [h]

theorem usePartsLoop_logs_filter_not_mem (now : Int) (parts : List PartUsage)
    (inv : List InventoryItem) (y : String) (hy : y ∉ parts.map PartUsage.partId) :
    (usePartsLoop now inv parts).newLogs.filter (fun e => e.inventoryItemId == y) = [] := by
  rw [List.filter_eq_nil_iff]
  intro e he
  obtain ⟨p, hp, h1, _, _⟩ := usePartsLoop_logs_from_parts now parts inv e he
  simp only [beq_iff_eq]
  intro hcon
  exact hy (by rw [← hcon, h1]; exact List.mem_map_of_mem PartUsage.partId hp)

theorem usePartsLoop_rem_filter_not_mem (now : Int) (parts : List PartUsage)
    (inv : List InventoryItem) (y : String) (hy : y ∉ parts.map PartUsage.partId) :
    (usePartsLoop now inv parts).newRemaining.filter (fun s => s.partId == y) = [] := by
  rw [List.filter_eq_nil_iff]
  intro r hr
  have hmem := usePartsLoop_rem_ids now parts inv r hr
  simp only [beq_iff_eq]
  intro hcon
  rw [hcon] at hmem
  exact hy hmem

/-- A part whose item exists with sufficient quantity IS processed: its
stored quantity becomes prior minus usage, exactly one remaining-inventory
entry for its id is reported with that quantity, and exactly one log entry
for its id is appended, carrying the negated usage (distinct part ids). -/
theorem usePartsLoop_success_part (now : Int) (parts : List PartUsage) :
    ∀ inv, (parts.map PartUsage.partId).Nodup →
      ∀ p ∈ parts, ∀ prior, findItem inv p.partId = some prior →
        p.quantityUsed ≤ prior.quantity →
        findItem (usePartsLoop now inv parts).inventory p.partId
            = some { prior with quantity := prior.quantity - p.quantityUsed }
        ∧ (usePartsLoop now inv parts).newRemaining.filter (fun s => s.partId == p.partId)
            = [⟨p.partId, prior.quantity - p.quantityUsed⟩]
        ∧ (usePartsLoop now inv parts).newLogs.filter (fun e => e.inventoryItemId == p.partId)
            = [⟨p.partId, -p.quantityUsed, now⟩] := by
  induction parts with
  | nil => intro inv _ p hp; cases hp
  | cons part rest ih =>
    intro inv hnd p hp prior hprior hq
    simp only [List.map, List.nodup_cons] at hnd
    obtain ⟨hnmem, hndrest⟩ := hnd
    rw [usePartsLoop]
    rcases List.mem_cons.mp hp with rfl | hpmem
    · rw [hprior]
      simp only [hq, decide_True, if_true]
      refine ⟨?_, ?_, ?_⟩
      · rw [usePartsLoop_findItem_not_mem now rest _ p.partId hnmem,
          findItem_setItemQuantity_eq, hprior]
        rfl
      · rw [List.filter_cons]
        simp only [beq_self_eq_true, if_true]
        rw [usePartsLoop_rem_filter_not_mem now rest _ p.partId hnmem]
      · rw [List.filter_cons]
        simp only [beq_self_eq_true, if_true]
        rw [usePartsLoop_logs_filter_not_mem now rest _ p.partId hnmem]
    · have hne : p.partId ≠ part.partId := fun hcon =>
        hnmem (by rw [← hcon]; exact List.mem_map_of_mem PartUsage.partId hpmem)
      cases hf : findItem inv part.partId with
      | none => exact ih inv hndrest p hpmem prior hprior hq
      | some it =>
        by_cases hq2 : part.quantityUsed ≤ it.quantity
        · simp only [hq2, if_true]
          have hprior2 : findItem
              (setItemQuantity inv part.partId (it.quantity - part.quantityUsed)) p.partId
              = some prior := by
            rw [findItem_setItemQuantity_ne _ _ _ _ hne]
            exact hprior
          obtain ⟨h1, h2, h3⟩ := ih _ hndrest p hpmem prior hprior2 hq
          refine ⟨h1, ?_, ?_⟩
          · rw [List.filter_cons]
            simp only [show (part.partId == p.partId) = false from
              beq_false_of_ne (Ne.symm hne), if_false]
            exact h2
          · rw [List.filter_cons]
            simp only [show (part.partId == p.partId) = false from
              beq_false_of_ne (Ne.symm hne), if_false]
            exact h3
        · simp only [hq2, if_false]
          exact ih inv hndrest p hpmem prior hprior hq

/-- A part whose item is missing or insufficiently stocked is skipped: its
stored record (if any) is untouched and no remaining-inventory entry and no
log entry for its id is produced (distinct part ids). -/
theorem usePartsLoop_failed_part (now : Int) (parts : List PartUsage) :
    ∀ inv, (parts.map PartUsage.partId).Nodup →
      ∀ p ∈ parts,
        (∀ prior, findItem inv p.partId = some prior → prior.quantity < p.quantityUsed) →
        findItem (usePartsLoop now inv parts).inventory p.partId = findItem inv p.partId
        ∧ (usePartsLoop now inv parts).newRemaining.filter (fun s => s.partId == p.partId) = []
        ∧ (usePartsLoop now inv parts).newLogs.filter (fun e => e.inventoryItemId == p.partId)
            = [] := by
  induction parts with
  | nil => intro inv _ p hp; cases hp
  | cons part rest ih =>
    intro inv hnd p hp hfail
    simp only [List.map, List.nodup_cons] at hnd
    obtain ⟨hnmem, hndrest⟩ := hnd
    rw [usePartsLoop]
    rcases List.mem_cons.mp hp with rfl | hpmem
    · cases hf : findItem inv p.partId with
      | none =>
        exact ⟨by rw [usePartsLoop_findItem_not_mem now rest _ p.partId hnmem]; exact hf,
          usePartsLoop_rem_filter_not_mem now rest _ p.partId hnmem,
          usePartsLoop_logs_filter_not_mem now rest _ p.partId hnmem⟩
      | some it =>
        have hq2 : ¬ p.quantityUsed ≤ it.quantity := by
          have := hfail it hf
          omega
        simp only [hq2, if_false]
        exact ⟨by rw [usePartsLoop_findItem_not_mem now rest _ p.partId hnmem]; exact hf,
          usePartsLoop_rem_filter_not_mem now rest _ p.partId hnmem,
          usePartsLoop_logs_filter_not_mem now rest _ p.partId hnmem⟩
    · have hne : p.partId ≠ part.partId := fun hcon =>
        hnmem (by rw [← hcon]; exact List.mem_map_of_mem PartUsage.partId hpmem)
      cases hf : findItem inv part.partId with
      | none => exact ih inv hndrest p hpmem hfail
      | some it =>
        by_cases hq2 : part.quantityUsed ≤ it.quantity
        · simp only [hq2, if_true]
          have hfail2 : ∀ prior, findItem
              (setItemQuantity inv part.partId (it.quantity - part.quantityUsed)) p.partId
              = some prior → prior.quantity < p.quantityUsed := by
            intro prior hprior
            rw [findItem_setItemQuantity_ne _ _ _ _ hne] at hprior
            exact hfail prior hprior
          obtain ⟨h1, h2, h3⟩ := ih _ hndrest p hpmem hfail2
          refine ⟨?_, ?_, ?_⟩
          · rw [h1, findItem_setItemQuantity_ne _ _ _ _ hne]
          · rw [List.filter_cons]
            simp only [show (part.partId == p.partId) = false from
              beq_false_of_ne (Ne.symm hne), if_false]
            exact h2
          · rw [List.filter_cons]
            simp only [show (part.partId == p.partId) = false from
              beq_false_of_ne (Ne.symm hne), if_false]
            exact h3
        · simp only [hq2, if_false]
          exact ih inv hndrest p hpmem hfail

/-- The loop's `all_success` flag is true exactly when every requested part
exists with sufficient stock in the starting inventory (distinct part ids). -/
theorem usePartsLoop_success_flag (now : Int) (parts : List PartUsage) :
    ∀ inv, (parts.map PartUsage.partId).Nodup →
      ((usePartsLoop now inv parts).allSuccess = true
        ↔ ∀ p ∈ parts, partSucceedsB inv p = true) := by
  induction parts with
  | nil => intro inv _; simp [usePartsLoop]
  | cons part rest ih =>
    intro inv hnd
    simp only [List.map, List.nodup_cons] at hnd
    obtain ⟨hnmem, hndrest⟩ := hnd
    rw [usePartsLoop]
    cases hf : findItem inv part.partId with
    | none =>
      apply iff_of_false
      · intro hcon
        have h2 : false = true := hcon
        cases h2
      · intro hcon
        have h2 := hcon part (List.mem_cons_self _ _)
        unfold partSucceedsB at h2
        rw [hf] at h2
        have h3 : false = true := h2
        cases h3
    | some it =>
      by_cases hq : part.quantityUsed ≤ it.quantity
      · simp only [hq, if_true]
        have hiff := ih (setItemQuantity inv part.partId (it.quantity - part.quantityUsed))
          hndrest
        constructor
        · intro h p hp
          rcases List.mem_cons.mp hp with rfl | hpmem
          · unfold partSucceedsB
            rw [hf]
            simpa using hq
          · have hne : p.partId ≠ part.partId := fun hcon =>
              hnmem (by rw [← hcon]; exact List.mem_map_of_mem PartUsage.partId hpmem)
            rw [← partSucceedsB_eq_of_findItem_eq
              (setItemQuantity inv part.partId (it.quantity - part.quantityUsed)) inv p
              (findItem_setItemQuantity_ne _ _ _ _ hne)]
            exact hiff.mp h p hpmem
        · intro h
          apply hiff.mpr
          intro p hpmem
          have hne : p.partId ≠ part.partId := fun hcon =>
            hnmem (by rw [← hcon]; exact List.mem_map_of_mem PartUsage.partId hpmem)
          rw [partSucceedsB_eq_of_findItem_eq
            (setItemQuantity inv part.partId (it.quantity - part.quantityUsed)) inv p
            (findItem_setItemQuantity_ne _ _ _ _ hne)]
          exact h p (List.mem_cons_of_mem _ hpmem)
      · simp only [hq, if_false]
        apply iff_of_false
        · intro hcon
          have h2 : false = true := hcon
          cases h2
        · intro hcon
          have h2 := hcon part (List.mem_cons_self _ _)
          unfold partSucceedsB at h2
          rw [hf] at h2
          simp only [decide_eq_true_eq] at h2
          exact hq h2
/-- C3: `useSparePart` is per-part best-effort.  Assuming the maintenance
record exists, the requested usages are positive and the part ids are
distinct: (1) the success flag is true iff every part exists with
sufficient stock; (2) every sufficiently-stocked part IS decremented — its
stored quantity becomes prior minus usage — with exactly one
remaining-inventory entry carrying that quantity and exactly one appended
log entry carrying the negated usage; (3) every missing or insufficient
part is skipped — stored record untouched, no remaining entry, no log
entry — while the rest are still processed; (4) the pre-existing log is
preserved as a prefix; (5) exactly one entry is appended per reported
decrement; (6) reported entries name only requested parts and are
non-negative; (7) every appended log entry has a negative change amount. -/
theorem useSparePart_best_effort (maintDb : List MaintenanceLog) (inv : List InventoryItem)
    (logs : List InventoryLog) (now : Int) (recordId : String) (parts : List PartUsage)
    (hrec : (findMaint maintDb recordId).isSome = true)
    (hpos : ∀ p ∈ parts, 0 < p.quantityUsed)
    (hnd : (parts.map PartUsage.partId).Nodup) :
    ((useSparePart maintDb inv logs now recordId parts).response.success = true
      ↔ ∀ p ∈ parts, partSucceedsB inv p = true)
    ∧ (∀ p ∈ parts, ∀ prior, findItem inv p.partId = some prior →
        p.quantityUsed ≤ prior.quantity →
        findItem (useSparePart maintDb inv logs now recordId parts).inventory p.partId
            = some { prior with quantity := prior.quantity - p.quantityUsed }
        ∧ (useSparePart maintDb inv logs now recordId parts).response.remainingInventory.filter
            (fun s => s.partId == p.partId) = [⟨p.partId, prior.quantity - p.quantityUsed⟩]
        ∧ ((useSparePart maintDb inv logs now recordId parts).logs.drop logs.length).filter
            (fun e => e.inventoryItemId == p.partId) = [⟨p.partId, -p.quantityUsed, now⟩])
    ∧ (∀ p ∈ parts,
        (∀ prior, findItem inv p.partId = some prior → prior.quantity < p.quantityUsed) →
        findItem (useSparePart maintDb inv logs now recordId parts).inventory p.partId
            = findItem inv p.partId
        ∧ (useSparePart maintDb inv logs now recordId parts).response.remainingInventory.filter
            (fun s => s.partId == p.partId) = []
        ∧ ((useSparePart maintDb inv logs now recordId parts).logs.drop logs.length).filter
            (fun e => e.inventoryItemId == p.partId) = [])
    ∧ (useSparePart maintDb inv logs now recordId parts).logs.take logs.length = logs
    ∧ (useSparePart maintDb inv logs now recordId parts).logs.length
        = logs.length
          + (useSparePart maintDb inv logs now recordId parts).response.remainingInventory.length
    ∧ (∀ s ∈ (useSparePart maintDb inv logs now recordId parts).response.remainingInventory,
        s.partId ∈ parts.map PartUsage.partId ∧ 0 ≤ s.remainingQuantity)
    ∧ (∀ e ∈ (useSparePart maintDb inv logs now recordId parts).logs.drop logs.length,
        e.changeAmount < 0) := by
  cases hm : findMaint maintDb recordId with
  | none => rw [hm] at hrec; simp at hrec
  | some r =>
    unfold useSparePart
    rw [hm]
    dsimp only
    refine ⟨usePartsLoop_success_flag now parts inv hnd, ?_, ?_, ?_, ?_, ?_, ?_⟩
    · intro p hp prior hprior hq
      obtain ⟨h1, h2, h3⟩ := usePartsLoop_success_part now parts inv hnd p hp prior hprior hq
      refine ⟨h1, h2, ?_⟩
      rw [List.drop_left]
      exact h3
    · intro p hp hfail
      obtain ⟨h1, h2, h3⟩ := usePartsLoop_failed_part now parts inv hnd p hp hfail
      refine ⟨h1, h2, ?_⟩
      rw [List.drop_left]
      exact h3
    · exact List.take_left logs _
    · rw [List.length_append, usePartsLoop_logs_len]
    · intro s hs
      exact ⟨usePartsLoop_rem_ids now parts inv s hs,
        usePartsLoop_rem_nonneg now parts inv s hs⟩
    · intro e he
      rw [List.drop_left logs _] at he
      obtain ⟨p, hp, _, hc, _⟩ := usePartsLoop_logs_from_parts now parts inv e he
      rw [hc]
      have := hpos p hp
      omega

theorem useSparePart_best_effort_witness :
    (useSparePart [⟨"m1", "eqp1", 0, 0, none⟩]
        [⟨"P1", "belt", "RESOURCE", 10⟩, ⟨"P2", "blade", "RESOURCE", 1⟩]
        [] 5 "m1" [⟨"P1", 2⟩, ⟨"P2", 5⟩]).response.success = true
      ↔ ∀ p ∈ [(⟨"P1", 2⟩ : PartUsage), ⟨"P2", 5⟩],
          partSucceedsB [⟨"P1", "belt", "RESOURCE", 10⟩, ⟨"P2", "blade", "RESOURCE", 1⟩] p
            = true :=
  (useSparePart_best_effort [⟨"m1", "eqp1", 0, 0, none⟩]
    [⟨"P1", "belt", "RESOURCE", 10⟩, ⟨"P2", "blade", "RESOURCE", 1⟩]
    [] 5 "m1" [⟨"P1", 2⟩, ⟨"P2", 5⟩] (by decide) (by decide) (by decide)).1


/-- C7 (counterexample): a successful `createOrder` decrements item `A` from
5 to 3 yet appends no `InventoryLog` entry at all: the order-creation
mutation is not logged. -/
theorem createOrder_mutation_unlogged :
    (createOrder ⟨[⟨"A", "a", "MATERIAL", 5⟩], [], []⟩ "o1" "c1" [⟨"A", 2⟩]).result
        = .ok ⟨"o1"⟩
    ∧ findItem (createOrder ⟨[⟨"A", "a", "MATERIAL", 5⟩], [], []⟩ "o1" "c1"
        [⟨"A", 2⟩]).state.inventory "A" = some ⟨"A", "a", "MATERIAL", 3⟩
    ∧ (createOrder ⟨[⟨"A", "a", "MATERIAL", 5⟩], [], []⟩ "o1" "c1"
        [⟨"A", 2⟩]).state.logs = [] := by decide

/-- C7 (amended): inventory-log bookkeeping tied to the actual mutations.
`createOrder`'s decrements create no `InventoryLog` record at all, while
`useSparePart` (existing record, distinct part ids) preserves the existing
log as a prefix and, per requested part: a sufficiently-stocked part's
stored quantity IS decremented by the usage with exactly one appended log
entry carrying the negated usage; a missing or insufficient part's record
is untouched, with no log entry for its id; and any item not requested is
untouched, with no log entry for its id. -/
theorem inventory_mutation_logging (st : SysState) (freshOrderId customerId : String)
    (items : List OrderItem) (maintDb : List MaintenanceLog) (inv : List InventoryItem)
    (logs : List InventoryLog) (now : Int) (recordId : String) (parts : List PartUsage)
    (hrec : (findMaint maintDb recordId).isSome = true)
    (hnd : (parts.map PartUsage.partId).Nodup) :
    (createOrder st freshOrderId customerId items).state.logs = st.logs
    ∧ (useSparePart maintDb inv logs now recordId parts).logs.take logs.length = logs
    ∧ (∀ p ∈ parts, ∀ prior, findItem inv p.partId = some prior →
        p.quantityUsed ≤ prior.quantity →
        findItem (useSparePart maintDb inv logs now recordId parts).inventory p.partId
            = some { prior with quantity := prior.quantity - p.quantityUsed }
        ∧ ((useSparePart maintDb inv logs now recordId parts).logs.drop logs.length).filter
            (fun e => e.inventoryItemId == p.partId) = [⟨p.partId, -p.quantityUsed, now⟩])
    ∧ (∀ p ∈ parts,
        (∀ prior, findItem inv p.partId = some prior → prior.quantity < p.quantityUsed) →
        findItem (useSparePart maintDb inv logs now recordId parts).inventory p.partId
            = findItem inv p.partId
        ∧ ((useSparePart maintDb inv logs now recordId parts).logs.drop logs.length).filter
            (fun e => e.inventoryItemId == p.partId) = [])
    ∧ (∀ y, y ∉ parts.map PartUsage.partId →
        findItem (useSparePart maintDb inv logs now recordId parts).inventory y
            = findItem inv y
        ∧ ((useSparePart maintDb inv logs now recordId parts).logs.drop logs.length).filter
            (fun e => e.inventoryItemId == y) = []) := by
  cases hm : findMaint maintDb recordId with
  | none => rw [hm] at hrec; simp at hrec
  | some r =>
    refine ⟨?_, ?_, ?_, ?_, ?_⟩
    · unfold createOrder
      cases h : validateItems st.inventory items with
      | error m => rfl
      | ok u => cases u; rfl
    · unfold useSparePart
      rw [hm]
      exact List.take_left logs _
    · unfold useSparePart
      rw [hm]
      dsimp only
      intro p hp prior hprior hq
      obtain ⟨h1, _, h3⟩ := usePartsLoop_success_part now parts inv hnd p hp prior hprior hq
      refine ⟨h1, ?_⟩
      rw [List.drop_left]
      exact h3
    · unfold useSparePart
      rw [hm]
      dsimp only
      intro p hp hfail
      obtain ⟨h1, _, h3⟩ := usePartsLoop_failed_part now parts inv hnd p hp hfail
      refine ⟨h1, ?_⟩
      rw [List.drop_left]
      exact h3
    · unfold useSparePart
      rw [hm]
      dsimp only
      intro y hy
      refine ⟨usePartsLoop_findItem_not_mem now parts inv y hy, ?_⟩
      rw [List.drop_left]
      exact usePartsLoop_logs_filter_not_mem now parts inv y hy

theorem inventory_mutation_logging_witness :
    (createOrder ⟨[⟨"A", "a", "MATERIAL", 5⟩], [], []⟩ "o1" "c1" [⟨"A", 2⟩]).state.logs = []
    ∧ (useSparePart [⟨"m1", "eqp1", 0, 0, none⟩] [⟨"P1", "belt", "RESOURCE", 10⟩]
        [] 5 "m1" [⟨"P1", 2⟩]).logs.take 0 = [] :=
  ⟨(inventory_mutation_logging ⟨[⟨"A", "a", "MATERIAL", 5⟩], [], []⟩ "o1" "c1" [⟨"A", 2⟩]
      [⟨"m1", "eqp1", 0, 0, none⟩] [⟨"P1", "belt", "RESOURCE", 10⟩] [] 5 "m1" [⟨"P1", 2⟩]
      (by decide) (by decide)).1,
   (inventory_mutation_logging ⟨[⟨"A", "a", "MATERIAL", 5⟩], [], []⟩ "o1" "c1" [⟨"A", 2⟩]
      [⟨"m1", "eqp1", 0, 0, none⟩] [⟨"P1", "belt", "RESOURCE", 10⟩] [] 5 "m1" [⟨"P1", 2⟩]
      (by decide) (by decide)).2.1⟩


/-- All stored quantities are non-negative. -/
def NonNegInventory (db : List InventoryItem) : Prop := ∀ it ∈ db, 0 ≤ it.quantity

instance (db : List InventoryItem) : Decidable (NonNegInventory db) := by
  unfold NonNegInventory; infer_instance

theorem ids_decrementItem (x : String) (n : Int) :
    ∀ db : List InventoryItem,
      (decrementItem db x n).map InventoryItem.id = db.map InventoryItem.id := by
  intro db
  induction db with
  | nil => rfl
  | cons r rest ih =>
    simp only [decrementItem, List.map] at ih ⊢
    by_cases hr : r.id = x <;> simp [hr, ih]

theorem ids_setItemQuantity (x : String) (q : Int) :
    ∀ db : List InventoryItem,
      (setItemQuantity db x q).map InventoryItem.id = db.map InventoryItem.id := by
  intro db
  induction db with
  | nil => rfl
  | cons r rest ih =>
    simp only [setItemQuantity, List.map] at ih ⊢
    by_cases hr : r.id = x <;> simp [hr, ih]

theorem applyDecrements_ids (items : List OrderItem) :
    ∀ db : List InventoryItem,
      (applyDecrements db items).map InventoryItem.id = db.map InventoryItem.id := by
  induction items with
  | nil => intro db; rfl
  | cons item rest ih =>
    intro db
    rw [applyDecrements, ih, ids_decrementItem]

theorem usePartsLoop_ids (now : Int) (parts : List PartUsage) :
    ∀ inv : List InventoryItem,
      (usePartsLoop now inv parts).inventory.map InventoryItem.id
        = inv.map InventoryItem.id := by
  induction parts with
  | nil => intro inv; rfl
  | cons part rest ih =>
    intro inv
    rw [usePartsLoop]
    cases hf : findItem inv part.partId with
    | none => exact ih inv
    | some it =>
      by_cases hq : part.quantityUsed ≤ it.quantity
      · simp only [hq, if_true]
        rw [ih, ids_setItemQuantity]
      · simp only [hq, if_false]
        exact ih inv

/-- If ids are unique, a member record is exactly what `find_unique` on its
id returns. -/
theorem findItem_eq_of_mem_nodup (db : List InventoryItem)
    (hwf : (db.map InventoryItem.id).Nodup) (r : InventoryItem) (hr : r ∈ db) :
    findItem db r.id = some r := by
  induction db with
  | nil => cases hr
  | cons a rest ih =>
    simp only [List.map, List.nodup_cons] at hwf
    obtain ⟨hna, hnd⟩ := hwf
    rcases List.mem_cons.mp hr with rfl | hmem
    · simp [findItem, List.find?]
    · have hne : ¬ (a.id == r.id) = true := by
        simp only [beq_iff_eq]
        intro hcon
        apply hna
        rw [hcon]
        exact List.mem_map_of_mem InventoryItem.id hmem
      simp only [findItem, List.find?, Bool.not_eq_true] at hne ⊢
      rw [hne]
      exact ih hnd hmem

theorem validateItems_congr (items : List OrderItem) (db1 db2 : List InventoryItem)
    (h : ∀ it ∈ items, findItem db1 it.inventoryItemId = findItem db2 it.inventoryItemId) :
    validateItems db1 items = validateItems db2 items := by
  induction items with
  | nil => rfl
  | cons item rest ih =>
    rw [validateItems, validateItems, h item (List.mem_cons_self _ _)]
    cases hf : findItem db2 item.inventoryItemId with
    | none => rfl
    | some inv =>
      by_cases hq : inv.quantity < item.quantity
      · simp [hq]
      · simp only [hq, if_false]
        exact ih (fun it hit => h it (List.mem_cons_of_mem _ hit))

theorem nonneg_decrementItem (db : List InventoryItem) (x : String) (n : Int)
    (hwf : (db.map InventoryItem.id).Nodup)
    (hfound : ∀ inv, findItem db x = some inv → n ≤ inv.quantity)
    (h : NonNegInventory db) : NonNegInventory (decrementItem db x n) := by
  intro it hit
  rw [decrementItem] at hit
  obtain ⟨r, hr, rfl⟩ := List.mem_map.mp hit
  by_cases hrx : r.id = x
  · have hfr : findItem db x = some r := by
      rw [← hrx]; exact findItem_eq_of_mem_nodup db hwf r hr
    have hn := hfound r hfr
    have h0 := h r hr
    rw [if_pos hrx]
    show 0 ≤ r.quantity - n
    omega
  · simpa [hrx] using h r hr

theorem applyDecrements_nonneg (items : List OrderItem) :
    ∀ db : List InventoryItem, validateItems db items = .ok () →
      (items.map OrderItem.inventoryItemId).Nodup →
      (db.map InventoryItem.id).Nodup →
      NonNegInventory db → NonNegInventory (applyDecrements db items) := by
  induction items with
  | nil => intro db _ _ _ h; exact h
  | cons item rest ih =>
    intro db hval hnd hwf h
    simp only [List.map, List.nodup_cons] at hnd
    obtain ⟨hnmem, hndrest⟩ := hnd
    rw [validateItems] at hval
    cases hf : findItem db item.inventoryItemId with
    | none => rw [hf] at hval; cases hval
    | some inv0 =>
      rw [hf] at hval
      by_cases hq : inv0.quantity < item.quantity
      · simp only [hq, if_true] at hval
        cases hval
      · simp only [hq, if_false] at hval
        rw [applyDecrements]
        have hwf' : ((decrementItem db item.inventoryItemId item.quantity).map
            InventoryItem.id).Nodup := by rw [ids_decrementItem]; exact hwf
        have hval' : validateItems (decrementItem db item.inventoryItemId item.quantity) rest
            = .ok () := by
          rw [validateItems_congr rest _ db]
          · exact hval
          · intro it hit
            apply findItem_decrementItem_ne
            intro hcon
            apply hnmem
            rw [← hcon]
            exact List.mem_map_of_mem OrderItem.inventoryItemId hit
        apply ih _ hval' hndrest hwf'
        apply nonneg_decrementItem db _ _ hwf _ h
        intro inv hinv
        rw [hf] at hinv
        cases hinv
        omega

theorem nonneg_setItemQuantity (db : List InventoryItem) (x : String) (q : Int)
    (hq : 0 ≤ q) (h : NonNegInventory db) : NonNegInventory (setItemQuantity db x q) := by
  intro it hit
  rw [setItemQuantity] at hit
  obtain ⟨r, hr, rfl⟩ := List.mem_map.mp hit
  by_cases hrx : r.id = x
  · simpa [hrx] using hq
  · simpa [hrx] using h r hr

theorem usePartsLoop_nonneg_inventory (now : Int) (parts : List PartUsage) :
    ∀ inv : List InventoryItem, NonNegInventory inv →
      NonNegInventory (usePartsLoop now inv parts).inventory := by
  induction parts with
  | nil => intro inv h; exact h
  | cons part rest ih =>
    intro inv h
    rw [usePartsLoop]
    cases hf : findItem inv part.partId with
    | none => exact ih inv h
    | some it =>
      by_cases hq : part.quantityUsed ≤ it.quantity
      · simp only [hq, if_true]
        apply ih
        apply nonneg_setItemQuantity _ _ _ _ h
        omega
      · simp only [hq, if_false]
        exact ih inv h

/-- One API-level inventory-mutating operation. -/
inductive StoreOp where
  | order (freshOrderId customerId : String) (items : List OrderItem)
  | useParts (now : Int) (recordId : String) (parts : List PartUsage)
  deriving Repr, DecidableEq

/-- Effect of one operation on the store (maintenance records are read-only
for these two operations). -/
def applyOp (maintDb : List MaintenanceLog) (st : SysState) : StoreOp → SysState
  | .order fid cid items => (createOrder st fid cid items).state
  | .useParts now rid parts =>
    let out := useSparePart maintDb st.inventory st.logs now rid parts
    ⟨out.inventory, st.orders, out.logs⟩

/-- Run a sequence of operations left to right. -/
def runOps (maintDb : List MaintenanceLog) : SysState → List StoreOp → SysState
  | st, [] => st
  | st, op :: rest => runOps maintDb (applyOp maintDb st op) rest

/-- An order operation references pairwise distinct inventory items
(spare-part usage needs no such restriction). -/
def opDistinctItems : StoreOp → Prop
  | .order _ _ items => (items.map OrderItem.inventoryItemId).Nodup
  | .useParts _ _ _ => True

instance : DecidablePred opDistinctItems := fun op => by
  cases op with
  | order a b items =>
    exact (inferInstance : Decidable ((items.map OrderItem.inventoryItemId).Nodup))
  | useParts a b c => exact (inferInstance : Decidable True)

theorem createOrder_preserves (st : SysState) (fid cid : String) (items : List OrderItem)
    (hnd : (items.map OrderItem.inventoryItemId).Nodup)
    (hwf : (st.inventory.map InventoryItem.id).Nodup)
    (h : NonNegInventory st.inventory) :
    NonNegInventory (createOrder st fid cid items).state.inventory
      ∧ ((createOrder st fid cid items).state.inventory.map InventoryItem.id).Nodup := by
  unfold createOrder
  cases hv : validateItems st.inventory items with
  | error m => exact ⟨h, hwf⟩
  | ok u =>
    cases u
    dsimp only
    refine ⟨applyDecrements_nonneg items st.inventory hv hnd hwf h, ?_⟩
    rw [applyDecrements_ids]
    exact hwf

theorem useSparePart_preserves (maintDb : List MaintenanceLog) (inv : List InventoryItem)
    (logs : List InventoryLog) (now : Int) (rid : String) (parts : List PartUsage)
    (hwf : (inv.map InventoryItem.id).Nodup) (h : NonNegInventory inv) :
    NonNegInventory (useSparePart maintDb inv logs now rid parts).inventory
      ∧ ((useSparePart maintDb inv logs now rid parts).inventory.map InventoryItem.id).Nodup := by
  unfold useSparePart
  cases hm : findMaint maintDb rid with
  | none => exact ⟨h, hwf⟩
  | some r =>
    dsimp only
    refine ⟨usePartsLoop_nonneg_inventory now parts inv h, ?_⟩
    rw [usePartsLoop_ids]
    exact hwf

/-- C4 (amended): starting from a store with unique item ids and
non-negative quantities, any sequence of `createOrder` and `useSparePart`
operations in which each order's line items reference pairwise distinct
items leaves every quantity non-negative (and ids unique).  `createOrder`
checks the whole batch before decrementing and `useSparePart` checks each
part right before its own decrement, so no checked decrement can cross
zero.  (Orders with duplicate line items break this, see the
counterexample.) -/
theorem quantities_never_negative (maintDb : List MaintenanceLog) (st : SysState)
    (ops : List StoreOp)
    (hwf : (st.inventory.map InventoryItem.id).Nodup)
    (h0 : NonNegInventory st.inventory)
    (hops : ∀ op ∈ ops, opDistinctItems op) :
    NonNegInventory (runOps maintDb st ops).inventory
      ∧ ((runOps maintDb st ops).inventory.map InventoryItem.id).Nodup := by
  induction ops generalizing st with
  | nil => exact ⟨h0, hwf⟩
  | cons op rest ih =>
    rw [runOps]
    have hop := hops op (List.mem_cons_self _ _)
    have hrest : ∀ o ∈ rest, opDistinctItems o :=
      fun o ho => hops o (List.mem_cons_of_mem _ ho)
    cases op with
    | order fid cid items =>
      have hstep := createOrder_preserves st fid cid items hop hwf h0
      exact ih _ hstep.2 hstep.1 hrest
    | useParts now rid parts =>
      have hstep := useSparePart_preserves maintDb st.inventory st.logs now rid parts hwf h0
      exact ih _ hstep.2 hstep.1 hrest

theorem quantities_never_negative_witness :
    NonNegInventory (runOps [⟨"m1", "eqp1", 0, 0, none⟩]
        ⟨[⟨"A", "a", "MATERIAL", 5⟩], [], []⟩
        [StoreOp.order "o1" "c1" [⟨"A", 3⟩],
         StoreOp.useParts 7 "m1" [⟨"A", 2⟩]]).inventory
    ∧ ((runOps [⟨"m1", "eqp1", 0, 0, none⟩]
        ⟨[⟨"A", "a", "MATERIAL", 5⟩], [], []⟩
        [StoreOp.order "o1" "c1" [⟨"A", 3⟩],
         StoreOp.useParts 7 "m1" [⟨"A", 2⟩]]).inventory.map InventoryItem.id).Nodup :=
  quantities_never_negative [⟨"m1", "eqp1", 0, 0, none⟩]
    ⟨[⟨"A", "a", "MATERIAL", 5⟩], [], []⟩
    [StoreOp.order "o1" "c1" [⟨"A", 3⟩], StoreOp.useParts 7 "m1" [⟨"A", 2⟩]]
    (by decide) (by decide) (by decide)

/-- C4 (counterexample): a single `createOrder` whose two line items both
name item `A` (quantity 5, requesting 3 each) leaves `A` at quantity -1:
the availability check covers each line item separately against the
unmutated state, not the aggregate batch. -/
theorem quantity_driven_negative :
    findItem (runOps [] ⟨[⟨"A", "a", "MATERIAL", 5⟩], [], []⟩
        [StoreOp.order "o1" "c1" [⟨"A", 3⟩, ⟨"A", 3⟩]]).inventory "A"
      = some ⟨"A", "a", "MATERIAL", -1⟩
    ∧ ¬ NonNegInventory (runOps [] ⟨[⟨"A", "a", "MATERIAL", 5⟩], [], []⟩
        [StoreOp.order "o1" "c1" [⟨"A", 3⟩, ⟨"A", 3⟩]]).inventory := by decide

/-- A `Shift` record: employee reference and interval bounds (the optional
equipment connection is set by `updateSchedule`). -/
structure ShiftRec where
  id : String
  employeeId : String
  startTime : Int
  endTime : Int
  equipmentId : Option String
  deriving Repr, DecidableEq

/-- `ShiftDetail` request model of `createSchedule`. -/
structure ShiftDetail where
  start_time : Int
  end_time : Int
  employee_id : String
  deriving Repr, DecidableEq

/-- `EquipmentUsage` request model of `createSchedule`. -/
structure EquipmentUsage where
  equipment_id : String
  start_time : Int
  end_time : Int
  deriving Repr, DecidableEq

/-- Response model of `createSchedule`. -/
structure ScheduleCreationResponse where
  schedule_id : String
  shifts : List ShiftDetail
  used_equipment : List EquipmentUsage
  creation_status : String
  deriving Repr, DecidableEq

/-- The `where` clause of the shift query (lines 64-72): an existing shift
matches iff `startTime < end_time` AND `endTime > start_time` AND it belongs
to the same employee. -/
def shiftOverlapsB (r : ShiftRec) (s : ShiftDetail) : Bool :=
  decide (r.startTime < s.end_time) && decide (r.endTime > s.start_time)
    && (r.employeeId == s.employee_id)

/-- `find_many` for the shift query is non-empty iff some record matches. -/
def shiftConflict (db : List ShiftRec) (s : ShiftDetail) : Bool :=
  db.any (fun r => shiftOverlapsB r s)

/-- The `where` clause of the maintenance query (lines 81-88): an open
(`completionDate = None`) maintenance window for the same equipment whose
interval overlaps the candidate usage. -/
def maintOverlapsB (r : MaintenanceLog) (e : EquipmentUsage) : Bool :=
  decide (r.startTime < e.end_time) && decide (r.endTime > e.start_time)
    && (r.equipmentId == e.equipment_id) && (r.completionDate == none)

def equipmentConflict (db : List MaintenanceLog) (e : EquipmentUsage) : Bool :=
  db.any (fun r => maintOverlapsB r e)

/-- Model of the library call `str(uuid.uuid4())`: a canonical 36-character
hyphenated hexadecimal string, deterministically seeded here.  Only its
format (in particular non-emptiness) matters to the claims. -/
def hexChar (n : Nat) : Char :=
  List.getD (String.toList "0123456789abcdef") (n % 16) (Char.ofNat 48)

def hexStr : Nat → Nat → String
  | 0, _ => ""
  | l + 1, v => hexStr l (v / 16) ++ String.singleton (hexChar (v % 16))

def uuid4String (seed : Nat) : String :=
  hexStr 8 seed ++ "-" ++ hexStr 4 (seed / 16 ^ 8) ++ "-" ++ hexStr 4 (seed / 16 ^ 12)
    ++ "-" ++ hexStr 4 (seed / 16 ^ 16) ++ "-" ++ hexStr 12 (seed / 16 ^ 20)

theorem hexStr_length : ∀ (l v : Nat), (hexStr l v).length = l := by
  intro l
  induction l with
  | zero => intro v; rfl
  | succ n ih =>
    intro v
    rw [hexStr, String.length_append, ih]
    rfl

theorem uuid4String_length (seed : Nat) : (uuid4String seed).length = 36 := by
  rw [uuid4String]
  simp only [String.length_append, hexStr_length]
  rfl

theorem uuid4String_ne_empty (seed : Nat) : uuid4String seed ≠ "" := by
  intro h
  have h1 := congrArg String.length h
  rw [uuid4String_length] at h1
  exact absurd h1 (by decide)

/-- `createSchedule(shift_details, equipment_usage)` from
`createSchedule_service.py`: the shift loop returns the fixed shift-conflict
failure on the first conflicting shift, then the equipment loop returns the
fixed equipment-conflict failure on the first conflicting usage, and only
then a fresh uuid is generated and the inputs are echoed back with status
`Success`.  The function performs no database writes in any branch.  Since
both failure responses are constants, the first-conflict loop is equivalent
to an existence test over the respective list. -/
def createSchedule (shiftDb : List ShiftRec) (maintDb : List MaintenanceLog)
    (uuidSeed : Nat) (shift_details : List ShiftDetail)
    (equipment_usage : List EquipmentUsage) : ScheduleCreationResponse :=
  if shift_details.any (shiftConflict shiftDb) then
    ⟨"", [], [], "Failed due to shift conflict"⟩
  else if equipment_usage.any (equipmentConflict maintDb) then
    ⟨"", [], [], "Failed due to equipment maintenance conflict"⟩
  else
    ⟨uuid4String uuidSeed, shift_details, equipment_usage, "Success"⟩

/-- The `Shift` response model of `updateSchedule`. -/
structure SchedShift where
  startTime : Int
  endTime : Int
  employeeId : String
  equipmentId : List String
  deriving Repr, DecidableEq

/-- Response model of `updateSchedule`: `updatedSchedule` is a REQUIRED,
non-optional field (`updatedSchedule: Shift` in the source, not
`Optional[Shift]`), which makes the not-found branch's construction with
`updatedSchedule=None` raise a pydantic `ValidationError`. -/
structure ScheduleUpdateResponse where
  success : Bool
  message : String
  updatedSchedule : SchedShift
  deriving Repr, DecidableEq

/-- The exception escaping `updateSchedule`'s not-found branch: pydantic
rejects `None` for the required `updatedSchedule` field before anything is
returned (and before any store write). -/
inductive UpdateScheduleError where
  | validationError
  deriving Repr, DecidableEq

/-- `Shift.prisma().find_unique(where=\x7b"id": key\x7d)`. -/
def findShiftRec (db : List ShiftRec) (key : String) : Option ShiftRec :=
  db.find? (fun r => r.id == key)

/-- `updateSchedule(scheduleId, ...)` from `updateSchedule_service.py`:
look up the shift by id.  If it is missing, the code attempts to build
`ScheduleUpdateResponse(success=False, ..., updatedSchedule=None)`, which
raises a pydantic `ValidationError` (the field is non-optional) — modelled
as `Except.error` — with no store write.  Otherwise it overwrites the
shift's times and connects the equipment, without querying any other shift
or maintenance record.  `operationPlan` is accepted and ignored, as in the
source. -/
def updateSchedule (db : List ShiftRec) (scheduleId : String)
    (shiftStartTime shiftEndTime : Int) (equipmentId : String)
    (_operationPlan : String) :
    Except UpdateScheduleError (ScheduleUpdateResponse × List ShiftRec) :=
  match findShiftRec db scheduleId with
  | none => .error .validationError
  | some r =>
    .ok (⟨true, "Shift was successfully updated.",
      ⟨shiftStartTime, shiftEndTime, r.employeeId, [equipmentId]⟩⟩,
     db.map fun s => if s.id = scheduleId then
        { s with startTime := shiftStartTime, endTime := shiftEndTime,
                 equipmentId := some equipmentId } else s)

/-- Stand-in for the rendered text of the pydantic `ValidationError`
(`str(e)` in the handler); its exact wording is irrelevant to the claims,
only that it is returned with status 500. -/
def validationErrorText : String :=
  "validation error for ScheduleUpdateResponse: updatedSchedule may not be none"

/-- `server.py`'s handler `api_put_updateSchedule`: call the service inside
a `try`; any raised exception — including the not-found branch's
`ValidationError` — is caught, logged and returned as HTTP 500 with an
`error` body, with the store unchanged. -/
def api_put_updateSchedule (db : List ShiftRec) (scheduleId : String)
    (shiftStartTime shiftEndTime : Int) (equipmentId : String)
    (operationPlan : String) : HttpOutcome ScheduleUpdateResponse × List ShiftRec :=
  match updateSchedule db scheduleId shiftStartTime shiftEndTime equipmentId operationPlan with
  | .ok (resp, db2) => (.ok resp, db2)
  | .error _ => (.errorResponse 500 validationErrorText, db)

/-- C2: `createSchedule` is two-phase and fail-fast — whenever any requested
shift conflicts with an existing shift of the same employee, the call
returns the shift-conflict failure response with empty payload, regardless
of any equipment conflicts; nothing is committed (the function writes
nothing in any branch), so an equipment conflict is never reported when a
shift conflict exists. -/
theorem createSchedule_shift_conflict_first (shiftDb : List ShiftRec)
    (maintDb : List MaintenanceLog) (seed : Nat) (details : List ShiftDetail)
    (usage : List EquipmentUsage)
    (h : ∃ s ∈ details, shiftConflict shiftDb s = true) :
    createSchedule shiftDb maintDb seed details usage
      = ⟨"", [], [], "Failed due to shift conflict"⟩ := by
  have hany : details.any (shiftConflict shiftDb) = true := by
    rw [List.any_eq_true]
    obtain ⟨s, hs, hc⟩ := h
    exact ⟨s, hs, hc⟩
  unfold createSchedule
  rw [hany]
  rfl

theorem createSchedule_shift_conflict_first_witness :
    createSchedule [⟨"s1", "E1", 0, 10, none⟩] [⟨"m1", "eqp1", 0, 10, none⟩] 0
        [⟨5, 15, "E1"⟩] [⟨"eqp1", 0, 5⟩]
      = ⟨"", [], [], "Failed due to shift conflict"⟩ :=
  createSchedule_shift_conflict_first [⟨"s1", "E1", 0, 10, none⟩]
    [⟨"m1", "eqp1", 0, 10, none⟩] 0 [⟨5, 15, "E1"⟩] [⟨"eqp1", 0, 5⟩]
    ⟨⟨5, 15, "E1"⟩, by decide, by decide⟩

/-- C9: when no requested shift conflicts with an existing shift of the same
employee and no equipment usage overlaps an open maintenance window,
`createSchedule` returns status `Success`, a freshly generated non-empty
schedule identifier, and echoes the submitted shifts and equipment usage
unchanged. -/
theorem createSchedule_success_echoes (shiftDb : List ShiftRec)
    (maintDb : List MaintenanceLog) (seed : Nat) (details : List ShiftDetail)
    (usage : List EquipmentUsage)
    (hs : ∀ s ∈ details, shiftConflict shiftDb s = false)
    (he : ∀ e ∈ usage, equipmentConflict maintDb e = false) :
    createSchedule shiftDb maintDb seed details usage
      = ⟨uuid4String seed, details, usage, "Success"⟩
    ∧ uuid4String seed ≠ "" := by
  have h1 : details.any (shiftConflict shiftDb) = false := by
    rw [List.any_eq_false]
    intro s hsm
    rw [hs s hsm]
    simp
  have h2 : usage.any (equipmentConflict maintDb) = false := by
    rw [List.any_eq_false]
    intro e hem
    rw [he e hem]
    simp
  refine ⟨?_, uuid4String_ne_empty seed⟩
  unfold createSchedule
  rw [h1, h2]
  rfl

theorem createSchedule_success_echoes_witness :
    createSchedule [⟨"s1", "E1", 0, 10, none⟩] [⟨"m1", "eqp1", 5, 8, some 99⟩] 12345
        [⟨10, 20, "E1"⟩, ⟨0, 10, "E2"⟩] [⟨"eqp1", 0, 5⟩]
      = ⟨uuid4String 12345, [⟨10, 20, "E1"⟩, ⟨0, 10, "E2"⟩], [⟨"eqp1", 0, 5⟩], "Success"⟩
    ∧ uuid4String 12345 ≠ "" :=
  createSchedule_success_echoes [⟨"s1", "E1", 0, 10, none⟩] [⟨"m1", "eqp1", 5, 8, some 99⟩]
    12345 [⟨10, 20, "E1"⟩, ⟨0, 10, "E2"⟩] [⟨"eqp1", 0, 5⟩] (by decide) (by decide)

/-- C6 (counterexample): a zero-length candidate shift at instant 5 DOES
conflict with an existing shift (0, 10) of the same employee under the
overlap test used by `createSchedule` — `0 < 5 ∧ 10 > 5` — so the claim
that a zero-length candidate never overlaps any existing interval is false. -/
theorem zero_length_candidate_conflicts :
    shiftConflict [⟨"s1", "E1", 0, 10, none⟩] ⟨5, 5, "E1"⟩ = true
    ∧ (createSchedule [⟨"s1", "E1", 0, 10, none⟩] [] 0 [⟨5, 5, "E1"⟩] []).creation_status
        = "Failed due to shift conflict" := by decide

/-- C6 (amended): a zero-length candidate interval (start = end = t)
conflicts exactly with those existing same-employee intervals that strictly
contain the instant t (`start < t < end`); in particular it never conflicts
with an interval merely touching it at an endpoint. -/
theorem zero_length_candidate_conflict_iff (db : List ShiftRec) (t : Int) (e : String) :
    shiftConflict db ⟨t, t, e⟩ = true
      ↔ ∃ r ∈ db, r.startTime < t ∧ t < r.endTime ∧ r.employeeId = e := by
  rw [shiftConflict, List.any_eq_true]
  constructor
  · rintro ⟨r, hr, hov⟩
    simp only [shiftOverlapsB, Bool.and_eq_true, decide_eq_true_eq, beq_iff_eq] at hov
    exact ⟨r, hr, hov.1.1, hov.1.2, hov.2⟩
  · rintro ⟨r, hr, h1, h2, h3⟩
    refine ⟨r, hr, ?_⟩
    simp [shiftOverlapsB, h1, h2, h3]

/-- C8 (counterexample): two refutations.  (a) Employee `E1` has shifts
`s1` = (0, 10) and `s2` = (20, 30); updating `s2` to the times (0, 10) —
which strictly overlap `s1` for the same employee, as the conflict check
itself reports — still returns success and persists the overlapping
interval: no conflict re-validation happens on update.  (b) Updating a
non-existent schedule id does not produce a typed failure: the not-found
branch raises (pydantic rejects `None` for the required `updatedSchedule`
field) and the endpoint answers HTTP 500. -/
theorem updateSchedule_skips_conflict_check :
    updateSchedule [⟨"s1", "E1", 0, 10, none⟩, ⟨"s2", "E1", 20, 30, none⟩]
        "s2" 0 10 "eqp1" "plan"
      = .ok (⟨true, "Shift was successfully updated.", ⟨0, 10, "E1", ["eqp1"]⟩⟩,
             [⟨"s1", "E1", 0, 10, none⟩, ⟨"s2", "E1", 0, 10, some "eqp1"⟩])
    ∧ shiftConflict [⟨"s1", "E1", 0, 10, none⟩] ⟨0, 10, "E1"⟩ = true
    ∧ api_put_updateSchedule [] "sX" 0 1 "eqp1" "plan"
      = (.errorResponse 500 validationErrorText, []) := by decide

/-- C8 (amended): `updateSchedule` performs no conflict re-validation.
When the target shift id exists, it overwrites the shift's times and
equipment and reports success — without checking the new times against any
other record.  When the target id does not exist, constructing the failure
response raises a pydantic `ValidationError` (the `updatedSchedule` field
is required and non-optional), which the endpoint surfaces as HTTP 500 with
the store unchanged — not as a typed failure payload. -/
theorem updateSchedule_behavior (db : List ShiftRec) (sid : String) (ns ne : Int)
    (eqId plan : String) :
    (findShiftRec db sid = none →
        updateSchedule db sid ns ne eqId plan = .error .validationError
        ∧ api_put_updateSchedule db sid ns ne eqId plan
            = (.errorResponse 500 validationErrorText, db))
    ∧ (∀ r, findShiftRec db sid = some r →
        updateSchedule db sid ns ne eqId plan
          = .ok (⟨true, "Shift was successfully updated.", ⟨ns, ne, r.employeeId, [eqId]⟩⟩,
                 db.map fun s => if s.id = sid then
                    { s with startTime := ns, endTime := ne, equipmentId := some eqId }
                  else s)) := by
  constructor
  · intro h
    constructor
    · unfold updateSchedule
      rw [h]
    · unfold api_put_updateSchedule updateSchedule
      rw [h]
  · intro r hr
    unfold updateSchedule
    rw [hr]

theorem updateSchedule_behavior_witness :
    updateSchedule [⟨"s1", "E1", 0, 10, none⟩] "zz" 0 1 "eqp1" "plan"
        = .error .validationError
    ∧ api_put_updateSchedule [⟨"s1", "E1", 0, 10, none⟩] "zz" 0 1 "eqp1" "plan"
        = (.errorResponse 500 validationErrorText, [⟨"s1", "E1", 0, 10, none⟩]) :=
  (updateSchedule_behavior [⟨"s1", "E1", 0, 10, none⟩] "zz" 0 1 "eqp1" "plan").1 (by decide)

/-- Parse results of the two fields of the feed's JSON body:
`float(data["market_price"])` and
`datetime.fromisoformat(data["last_update"])`; `none` models a missing key
or a value the conversion rejects.  Prices are modelled as integers — the
claims only distinguish zero from non-zero. -/
structure FeedBody where
  market_price : Option Int
  last_update : Option Int
  deriving Repr, DecidableEq

/-- Outcome of the outbound `httpx` GET: transport failure, or a response
with a status code and a body (`none` = `resp.json()` fails to parse). -/
inductive FeedOutcome where
  | netError
  | response (status : Nat) (body : Option FeedBody)
  deriving Repr, DecidableEq

/-- Response model of `getCurrentMarketPrice`. -/
structure MarketPriceResponse where
  market_price : Int
  last_update : Int
  deriving Repr, DecidableEq

/-- `getCurrentMarketPrice` from `getCurrentMarketPrice_service.py`: the
locals start as `market_price = 0.0`, `last_update = now`; inside the `try`
the GET runs, `raise_for_status` raises on a 4xx/5xx code, the body is
parsed, then `market_price` is ASSIGNED, then `last_update` is parsed.  Any
exception jumps to the `except` block, which only logs; the function then
returns whatever the locals hold — so a failure after the `market_price`
assignment keeps the parsed price.  The function never propagates an
error. -/
def getCurrentMarketPrice (o : FeedOutcome) (now : Int) : MarketPriceResponse :=
  match o with
  | .netError => ⟨0, now⟩
  | .response status body =>
    if 400 ≤ status then ⟨0, now⟩
    else
      match body with
      | none => ⟨0, now⟩
      | some b =>
        match b.market_price with
        | none => ⟨0, now⟩
        | some p =>
          match b.last_update with
          | none => ⟨p, now⟩
          | some t => ⟨p, t⟩

/-- The feed call fails before the `market_price` assignment: network error,
error status, unparseable body, or unparseable `market_price` field. -/
def feedFailsBeforePrice : FeedOutcome → Bool
  | .netError => true
  | .response status body =>
    if 400 ≤ status then true
    else
      match body with
      | none => true
      | some b => b.market_price.isNone

/-- C10 (counterexample): a 200 response whose body parses and carries
`market_price = 7` but an unparseable `last_update` is a parse failure of
the response body, yet the operation returns price 7 (≠ 0) with the current
timestamp — not the zero price the claim requires on every failure. -/
theorem marketPrice_nonzero_on_timestamp_parse_failure :
    getCurrentMarketPrice (.response 200 (some ⟨some 7, none⟩)) 1000 = ⟨7, 1000⟩
    ∧ (7 : Int) ≠ 0 := by decide

/-- C10 (amended): `getCurrentMarketPrice` never propagates a failure (it is
a total function into responses); every failure occurring before the
`market_price` assignment — network error, 4xx/5xx status, body parse
failure, `market_price` parse failure — yields the zero price with the
current timestamp, while a failure parsing only `last_update` yields the
already-parsed price with the current timestamp. -/
theorem marketPrice_degrades (o : FeedOutcome) (now : Int) :
    (feedFailsBeforePrice o = true → getCurrentMarketPrice o now = ⟨0, now⟩)
    ∧ (∀ status b p, o = .response status (some b) → ¬ 400 ≤ status →
        b.market_price = some p → b.last_update = none →
        getCurrentMarketPrice o now = ⟨p, now⟩) := by
  constructor
  · intro h
    cases o with
    | netError => rfl
    | response status body =>
      simp only [feedFailsBeforePrice] at h
      by_cases hs : 400 ≤ status
      · simp [getCurrentMarketPrice, hs]
      · rw [if_neg hs] at h
        cases body with
        | none => simp [getCurrentMarketPrice, hs]
        | some b =>
          have h2 : b.market_price.isNone = true := h
          cases hp : b.market_price with
          | none => simp [getCurrentMarketPrice, hs, hp]
          | some p => rw [hp] at h2; simp at h2
  · rintro status b p rfl hs hp ht
    simp [getCurrentMarketPrice, hs, hp, ht]

theorem marketPrice_degrades_witness :
    getCurrentMarketPrice FeedOutcome.netError 42 = ⟨0, 42⟩ :=
  (marketPrice_degrades FeedOutcome.netError 42).1 (by decide)
